import Mathlib

/-!
# Verification of the startGGSeeder ingestion/rating pipeline

Shallow embedding of the core pipeline of the repository:

* `src/service/rating_service.py` (`RatingService.apply_matches`)
* `src/repos/tournament_processor.py` (`EventProcessor.process_event`,
  `EventProcessor._fetch_matches_for_batch`, `TournamentProcessor.process_tournament`)
* `src/seed_tournaments.py` (`main`)
* `src/update.py` (`update_with_discriminator` signature)
* `src/query.py` (`run_query` retry/backoff loop)

Python dicts are embedded as association lists (`List (ℕ × α)`) with
insertion-order semantics; floats are embedded as rationals; the external
Glicko-2 `update_player` is a parameter `upd` of every function that invokes
it, since the library is an external collaborator of this repository.
-/

namespace StartGGSeeder

/-! ## Association-list embedding of Python dicts -/

/-- Lookup of a key in an insertion-ordered map (`k in d` / `d[k]`). -/
def alookup (k : ℕ) : List (ℕ × α) → Option α
  | [] => none
  | (k', v) :: rest => if k' = k then some v else alookup k rest

/-- In-place modification `d[k] = f d[k]` of an existing key (no-op when absent). -/
def aupdate (k : ℕ) (f : α → α) : List (ℕ × α) → List (ℕ × α)
  | [] => []
  | (k', v) :: rest => if k' = k then (k', f v) :: rest else (k', v) :: aupdate k f rest

/-- Python dict assignment `d[k] = v`: replaces the value when the key is
present, otherwise appends the new key at the end (insertion order). -/
def aset (k : ℕ) (v : α) : List (ℕ × α) → List (ℕ × α)
  | [] => [(k, v)]
  | (k', v') :: rest => if k' = k then (k, v) :: rest else (k', v') :: aset k v rest

/-! ## Data model: players (glicko2 `Player` objects with an `appearances` attribute) -/

/-- In-memory player state: the glicko2 library `Player` object's observable
fields (`rating`, `rd`, `vol`) plus the dynamically attached `appearances`
counter (`src/repos/tournament_processor.py` lines 34, 38). -/
structure GPlayer where
  rating : ℚ
  rd : ℚ
  vol : ℚ
  appearances : ℕ
deriving Repr, DecidableEq

/-- The in-memory player map `players : Dict[int, Player]`. -/
abbrev PMap := List (ℕ × GPlayer)

/-- One `(opponent rating, opponent deviation, outcome)` tuple fed to
`update_player` (`src/service/rating_service.py` lines 15-16). -/
abbrev GTuple := ℚ × ℚ × ℕ

/-- Type of the external glicko2 period update
`Player.update_player(rating_list, RD_list, outcome_list)`.  The library is an
external collaborator (imported, not part of this repository), so every
embedded function that invokes it takes it as a parameter. -/
abbrev UpdFn := GPlayer → List ℚ → List ℚ → List ℕ → GPlayer

/-! ## `RatingService.apply_matches` (src/service/rating_service.py lines 8-23) -/

/-- First loop of `apply_matches`: one step of building the `results` dict.
For a `(winner, loser)` match, when both ids are in `players` it appends
`(l.rating, l.rd, 1)` to `results[winner]` and `(w.rating, w.rd, 0)` to
`results[loser]`; otherwise the match is skipped (`continue`). -/
def resultsStep (players : PMap) (acc : List (ℕ × List GTuple)) (m : ℕ × ℕ) :
    List (ℕ × List GTuple) :=
  match alookup m.1 players, alookup m.2 players with
  | some w, some l =>
      aupdate m.2 (fun g => g ++ [(w.rating, w.rd, 0)])
        (aupdate m.1 (fun g => g ++ [(l.rating, l.rd, 1)]) acc)
  | _, _ => acc

/-- The `results` dict after the first loop of `apply_matches`:
initialized as `{pid: [] for pid in players}` and folded over `matches`. -/
def resultsMap (players : PMap) (ms : List (ℕ × ℕ)) : List (ℕ × List GTuple) :=
  ms.foldl (resultsStep players) (players.map fun pv => (pv.1, ([] : List GTuple)))

/-- Second loop of `apply_matches`: for each `(player_id, games)` entry of
`results` in order, when `games` is non-empty call
`players[player_id].update_player(r_list, rd_list, outcome)`. -/
def applyResults (upd : UpdFn) (entries : List (ℕ × List GTuple)) (players : PMap) : PMap :=
  entries.foldl
    (fun ps pg =>
      if pg.2 = [] then ps
      else aupdate pg.1
        (fun p => upd p (pg.2.map (·.1)) (pg.2.map (·.2.1)) (pg.2.map (·.2.2))) ps)
    players

/-- `RatingService.apply_matches(players, matches)` (lines 8-23). -/
def applyMatches (upd : UpdFn) (players : PMap) (ms : List (ℕ × ℕ)) : PMap :=
  applyResults upd (resultsMap players ms) players

/-- Modelled from the spec (§4.4): "for each player independently, the list of
(opponent pre-update rating, opponent pre-update deviation, outcome ∈ {0,1})
tuples from every match that player participated in", reading opponent values
only from the immutable pre-batch `players` map. -/
def specTuples (players : PMap) : List (ℕ × ℕ) → ℕ → List GTuple
  | [], _ => []
  | m :: ms, p =>
    match alookup m.1 players, alookup m.2 players with
    | some w, some l =>
        ((if m.1 = p then [(l.rating, l.rd, 1)] else []) ++
         (if m.2 = p then [(w.rating, w.rd, 0)] else [])) ++ specTuples players ms p
    | _, _ => specTuples players ms p

/-! ## Match extractor (`EventProcessor._fetch_matches_for_batch`, lines 56-100) -/

/-- One node of an entrant's `paginatedSets` response: set id, declared winner
entrant id, and the two participant slots' entrant ids. -/
structure GameSet where
  sid : ℕ
  winnerId : ℕ
  slot1 : ℕ
  slot2 : ℕ
deriving Repr, DecidableEq

/-- A produced match tagged with the set id it was converted from:
`(set_id, winner_player_id, loser_player_id)`.  The source appends the
untagged pair `(p1, p2)` / `(p2, p1)` (lines 97-99); the tag records the
`set_id` read at line 85 so that the dedup property can be stated. -/
abbrev STriple := ℕ × ℕ × ℕ

/-- Drop the set-id tag: the `(winner, loser)` pair the source stores. -/
def untag (t : STriple) : ℕ × ℕ := t.2

/-- Inner loop body of `_fetch_matches_for_batch` (lines 84-99): process one
set node.  The set id is marked seen *before* the player-mapping check; a set
whose id was already seen is skipped (`continue`); a set with an unmapped
slot, or a winner id matching neither slot, produces no match. -/
def stepSet (e2p : List (ℕ × ℕ)) (st : List STriple × List ℕ) (g : GameSet) :
    List STriple × List ℕ :=
  if g.sid ∈ st.2 then st
  else
    let seen := g.sid :: st.2
    match alookup g.slot1 e2p, alookup g.slot2 e2p with
    | some p1, some p2 =>
        if g.winnerId = g.slot1 then (st.1 ++ [(g.sid, p1, p2)], seen)
        else if g.winnerId = g.slot2 then (st.1 ++ [(g.sid, p2, p1)], seen)
        else (st.1, seen)
    | _, _ => (st.1, seen)

/-- `_fetch_matches_for_batch(entrant_ids, entrant_to_player, seen_sets)`
(lines 56-100): for each queried entrant alias `E0..En` in batch order,
iterate that entrant's sets in reversed order (line 83), threading
`seen_sets`; returns the produced matches and the grown registry.  `setsOf`
gives each entrant's `paginatedSets.nodes` from the batched response. -/
def fetchMatchesForBatch (setsOf : ℕ → List GameSet) (e2p : List (ℕ × ℕ))
    (batch : List ℕ) (seen : List ℕ) : List STriple × List ℕ :=
  batch.foldl (fun st e => ((setsOf e).reverse).foldl (stepSet e2p) st) ([], seen)

/-! ## `EventProcessor.process_event` (src/repos/tournament_processor.py lines 18-54) -/

/-- One entrant node of the event's `entrants.nodes` response; the source
reads `participants[0].player` (lines 28-29), embedded as the entrant's
first participant. -/
structure Entrant where
  id : ℕ
  playerId : ℕ
  name : String
deriving Repr, DecidableEq

/-- glicko2 library `Player()` defaults (external collaborator; spec §3 fixes
them as the Glicko-2 defaults 1500 / 350 / 0.06), with the `appearances`
attribute the source sets to 1 on creation (line 34). -/
def newGPlayer : GPlayer := { rating := 1500, rd := 350, vol := 3/50, appearances := 1 }

/-- State built by the entrant loop of `process_event` (lines 22-40). -/
structure EntrantState where
  players : PMap
  names : List (ℕ × String)
  e2p : List (ℕ × ℕ)
  entrantIds : List ℕ
deriving Repr

/-- One iteration of the entrant loop (lines 27-40): a first-seen player id is
inserted with `appearances = 1` and its name recorded; a known player's
`appearances` is incremented by 1; the entrant → player mapping and the
entrant id list are extended for every entrant occurrence. -/
def entrantStep (st : EntrantState) (e : Entrant) : EntrantState :=
  let st' :=
    match alookup e.playerId st.players with
    | none =>
        { st with
            players := aset e.playerId newGPlayer st.players,
            names := aset e.playerId e.name st.names }
    | some _ =>
        { st with
            players :=
              aupdate e.playerId (fun p => { p with appearances := p.appearances + 1 })
                st.players }
  { st' with
      e2p := aset e.id e.playerId st'.e2p,
      entrantIds := st'.entrantIds ++ [e.id] }

/-- The entrant loop of `process_event` (lines 27-40). -/
def entrantLoop (entrants : List Entrant) (st : EntrantState) : EntrantState :=
  entrants.foldl entrantStep st

/-- Fuel-driven helper for the slicing loop
`for i in range(0, len(entrant_ids), self.max_batch_size)` (lines 43-44). -/
def chunksOfAux (n : ℕ) : ℕ → List α → List (List α)
  | 0, _ => []
  | _, [] => []
  | fuel + 1, x :: xs => (x :: xs.take (n - 1)) :: chunksOfAux n fuel (xs.drop (n - 1))

/-- Partition a list into consecutive chunks of size `n`
(`entrant_ids[i:i + self.max_batch_size]`). -/
def chunksOf (n : ℕ) (l : List α) : List (List α) := chunksOfAux n l.length l

/-- State threaded through the batch loop of `process_event` (lines 42-51):
the mutable player map and the event-scoped `seen_sets` registry, plus the
accumulated tagged matches, the recorded history rows, and the
`update_player` invocations performed by `apply_matches` so far. -/
structure BatchState where
  players : PMap
  seen : List ℕ
  matchList : List STriple
  history : List (ℕ × ℕ)
  calls : List (ℕ × List GTuple)
deriving Repr

/-- The `update_player` invocations performed by one `apply_matches` call:
exactly the entries of the `results` dict with a non-empty games list
(`src/service/rating_service.py` lines 18-23), in dict order. -/
def updateCalls (players : PMap) (ms : List (ℕ × ℕ)) : List (ℕ × List GTuple) :=
  (resultsMap players ms).filter (fun pg => !pg.2.isEmpty)

/-- One iteration of the batch loop (lines 43-51): fetch this sub-batch's new
matches (threading `seen_sets`), record the history rows, and call
`RatingService.apply_matches` on this sub-batch's matches. -/
def runBatch (upd : UpdFn) (setsOf : ℕ → List GameSet) (e2p : List (ℕ × ℕ))
    (st : BatchState) (batch : List ℕ) : BatchState :=
  let fm := fetchMatchesForBatch setsOf e2p batch st.seen
  let pairs := fm.1.map untag
  { players := applyMatches upd st.players pairs,
    seen := fm.2,
    matchList := st.matchList ++ fm.1,
    history := st.history ++ pairs,
    calls := st.calls ++ updateCalls st.players pairs }

/-- `EventProcessor.process_event` (lines 18-54): the entrant loop followed by
the per-sub-batch fetch / record / apply loop, with a fresh event-scoped
`seen_sets` registry (line 42) and `max_batch_size = 25` (line 16). -/
def processEvent (upd : UpdFn) (setsOf : ℕ → List GameSet) (entrants : List Entrant)
    (players0 : PMap) (names0 : List (ℕ × String)) : EntrantState × BatchState :=
  let es := entrantLoop entrants ⟨players0, names0, [], []⟩
  let bs := (chunksOf 25 es.entrantIds).foldl (runBatch upd setsOf es.e2p)
    ⟨es.players, [], [], [], []⟩
  (es, bs)

/-- The raw payload of one event as consumed by `process_event`. -/
structure EventInput where
  entrants : List Entrant
  setsOf : ℕ → List GameSet

/-- A sequence of `process_event` invocations within one processing run:
player and name state persists between events (`save_players` / `load_players`
round-trips through the store) and matches accumulate, while each invocation
starts a fresh `seen_sets` registry (line 42). -/
def runEvents (upd : UpdFn) : List EventInput → PMap × List (ℕ × String) × List STriple →
    PMap × List (ℕ × String) × List STriple
  | [], acc => acc
  | ev :: evs, (ps, ns, ms) =>
    let r := processEvent upd ev.setsOf ev.entrants ps ns
    runEvents upd evs (r.2.players, r.1.names, ms ++ r.2.matchList)

/-- Number of matches in a tagged match list converted from set id `s`. -/
def countSid (s : ℕ) : List STriple → ℕ
  | [] => 0
  | t :: ts => (if t.1 = s then 1 else 0) + countSid s ts

/-- Number of `update_player` invocations performed for player `p`. -/
def countCalls (p : ℕ) : List (ℕ × List GTuple) → ℕ
  | [] => 0
  | c :: cs => (if c.1 = p then 1 else 0) + countCalls p cs

/-- Number of entrants of an event whose (first participant's) player id is `p`. -/
def countPlayer (p : ℕ) : List Entrant → ℕ
  | [] => 0
  | e :: es => (if e.playerId = p then 1 else 0) + countPlayer p es

/-- `appearances` counter of player `p` in a player map (0 when absent). -/
def appsOf (p : ℕ) (m : PMap) : ℕ := ((alookup p m).map (·.appearances)).getD 0

/-! ## Python call binding (for the `TypeError` call sites) -/

/-- Exceptions relevant to the `seed_tournaments.main` control flow. -/
inductive PyErr where
  | typeError (msg : String)
  | systemExit (msg : String)
  | other (msg : String)
deriving Repr, DecidableEq

/-- A Python signature: names of required parameters and of optional
(defaulted) parameters, in order. -/
structure PySig where
  required : List String
  optional : List String

/-- All parameter names of a signature, in order. -/
def PySig.params (s : PySig) : List String := s.required ++ s.optional

/-- CPython argument binding for a call `f(a1, …, a_nPos, **kwargs)`:
raises `TypeError` — before the body runs — for an unexpected keyword, a
keyword that also received a positional value, or a missing required
argument. -/
def bindCall (sig : PySig) (nPos : ℕ) (kwargs : List String) : Except PyErr Unit :=
  if sig.params.length < nPos then
    .error (.typeError "too many positional arguments")
  else if kwargs.any (fun k => !sig.params.contains k) then
    .error (.typeError "got an unexpected keyword argument")
  else if kwargs.any (fun k => (sig.params.take nPos).contains k) then
    .error (.typeError "got multiple values for argument")
  else if sig.required.any
      (fun p => !((sig.params.take nPos).contains p || kwargs.contains p)) then
    .error (.typeError "missing a required positional argument")
  else .ok ()

/-- `TournamentProcessor.process_tournament(self, event_slug, saved_games=False)`
(src/repos/tournament_processor.py line 110); `self` is already bound. -/
def processTournamentSig : PySig := ⟨["event_slug"], ["saved_games"]⟩

/-- `update_with_discriminator(supabase, *, batch_size=…, sleep_seconds=…,
log_every=…, dry_run=…, only_missing=…, debug_missing=…)` (src/update.py
lines 49-58): `supabase` is a required positional parameter. -/
def updateWithDiscriminatorSig : PySig :=
  ⟨["supabase"],
   ["batch_size", "sleep_seconds", "log_every", "dry_run", "only_missing", "debug_missing"]⟩

/-- The call `processor.process_tournament(slug, saved_games=args.saved_games,
update_discriminator=False)` at src/seed_tournaments.py line 220: one
positional argument and two keywords, guarding the method body `body`. -/
def callProcessTournament (body : Except PyErr Unit) : Except PyErr Unit :=
  match bindCall processTournamentSig 1 ["saved_games", "update_discriminator"] with
  | .error e => .error e
  | .ok _ => body

/-- The zero-argument call `update_with_discriminator()` at
src/repos/tournament_processor.py line 164 and src/seed_tournaments.py
line 241, guarding the function body `body`. -/
def callUpdateWithDiscriminator (body : Except PyErr Unit) : Except PyErr Unit :=
  match bindCall updateWithDiscriminatorSig 0 [] with
  | .error e => .error e
  | .ok _ => body

/-- Persistence effects of the tail of `process_tournament`. -/
inductive TailEffect where
  | upsertVideogameMapping
deriving Repr, DecidableEq

/-- Tail of `TournamentProcessor.process_tournament` after the event loop
finished (lines 162-164): the `videogame_mapping` upsert is performed, then
`update_with_discriminator()` is called with zero arguments. -/
def processTournamentFinish (body : Except PyErr Unit) :
    List TailEffect × Except PyErr Unit :=
  ([.upsertVideogameMapping], callUpdateWithDiscriminator body)

/-! ## `seed_tournaments.main` (src/seed_tournaments.py lines 151-251) -/

/-- One tournament node of the search results: slug and `endAt` (`none`
models a non-`int` value failing the `isinstance(end_at, int)` checks). -/
structure TNode where
  slug : String
  endAt : Option ℤ
deriving Repr, DecidableEq

/-- Options of `seed_tournaments.main` relevant to the processing loop, with
argparse defaults `after_date=None`, `dry_run=False`,
`continue_on_error=False`, `max_errors=25`, `max_tournaments=None`. -/
structure MainArgs where
  afterDate : Option ℤ
  dryRun : Bool
  continueOnError : Bool
  maxErrors : ℤ
  maxTournaments : Option ℕ
deriving Repr, DecidableEq

/-- Loop state of `main` (lines 154-159). -/
structure LoopState where
  maxEndAt : ℤ
  processedMaxEndAt : ℤ
  processed : ℕ
  failed : ℕ
  seen : ℕ
deriving Repr, DecidableEq

/-- `if isinstance(end_at, int) and end_at > cur: cur = end_at`
(lines 211-212 and 222-223). -/
def bumpMax (cur : ℤ) : Option ℤ → ℤ
  | some e => if e > cur then e else cur
  | none => cur

/-- `args.max_tournaments is not None and seen >= args.max_tournaments`
(line 207). -/
def maxTReached (mt : Option ℕ) (seen : ℕ) : Bool :=
  match mt with
  | none => false
  | some m => decide (m ≤ seen)

/-- The tournament loop of `main` (lines 199-234), parameterized by the
behavior `proc` of the `process_tournament` call for each slug.  Returns the
loop state and the exception that escaped the loop, if any. -/
def mainLoop (proc : String → Except PyErr Unit) (args : MainArgs) :
    List TNode → LoopState → LoopState × Option PyErr
  | [], st => (st, none)
  | node :: rest, st =>
    if node.slug = "" then mainLoop proc args rest st
    else if maxTReached args.maxTournaments st.seen then (st, none)
    else
      let st1 : LoopState :=
        { st with seen := st.seen + 1, maxEndAt := bumpMax st.maxEndAt node.endAt }
      if args.dryRun then mainLoop proc args rest st1
      else
        match proc node.slug with
        | .ok _ =>
            mainLoop proc args rest
              { st1 with processed := st1.processed + 1,
                         processedMaxEndAt := bumpMax st1.processedMaxEndAt node.endAt }
        | .error e =>
            let st2 : LoopState := { st1 with failed := st1.failed + 1 }
            if ¬ args.continueOnError then (st2, some e)
            else if max 1 args.maxErrors ≤ (st2.failed : ℤ) then
              (st2, some (.systemExit "Stopping: reached max failures"))
            else mainLoop proc args rest st2

/-- Observable outcome of one `main` invocation: whether an exception
propagated out of `main`, the `set_timestamp` watermark write if it was
reached, and the final loop state. -/
structure RunOutcome where
  aborted : Bool
  watermark : Option ℤ
  state : LoopState
deriving Repr, DecidableEq

/-- `seed_tournaments.main` (lines 151-251): effective lower bound
`after_date = args.after_date if args.after_date is not None else stored`
(lines 151-152), the processing loop, then — when not a dry run and
`processed > 0` — the zero-argument `update_with_discriminator()` call
followed by `last_repo.set_timestamp(key, processed_max_end_at)`
(lines 240-242).  `proc` is the behavior of the per-slug
`process_tournament` call (line 220), `updDisc` that of the module-level
`update_with_discriminator()` call (line 241). -/
def mainRun (proc : String → Except PyErr Unit) (updDisc : Except PyErr Unit)
    (stored : ℤ) (args : MainArgs) (nodes : List TNode) : RunOutcome :=
  let after := args.afterDate.getD stored
  let r := mainLoop proc args nodes ⟨after, after, 0, 0, 0⟩
  match r.2 with
  | some _ => ⟨true, none, r.1⟩
  | none =>
    if args.dryRun then ⟨false, none, r.1⟩
    else if r.1.processed ≠ 0 then
      match updDisc with
      | .error _ => ⟨true, none, r.1⟩
      | .ok _ => ⟨false, some r.1.processedMaxEndAt, r.1⟩
    else ⟨false, none, r.1⟩

/-- The stored watermark after a run: the written value when `set_timestamp`
was reached, otherwise the unchanged stored value. -/
def storedAfter (out : RunOutcome) (stored : ℤ) : ℤ := out.watermark.getD stored

/-- `True` exactly on a non-raising call outcome. -/
def isOk : Except PyErr Unit → Bool
  | .ok _ => true
  | .error _ => false

/-- Modelled from the spec (§8 "Watermark monotonicity"): the maximum
`end_at` taken only among tournaments whose processing completed without
raising, folded from a baseline over the nodes with a non-empty slug. -/
def successfulMaxEnd (proc : String → Except PyErr Unit) (base : ℤ) :
    List TNode → ℤ
  | [] => base
  | n :: ns =>
      successfulMaxEnd proc
        (if n.slug ≠ "" ∧ isOk (proc n.slug) then bumpMax base n.endAt else base) ns

/-- Number of nodes with a non-empty slug (those the loop attempts to
process when no `max_tournaments` cutoff applies). -/
def countSlugs : List TNode → ℕ
  | [] => 0
  | n :: ns => (if n.slug = "" then 0 else 1) + countSlugs ns

/-! ## `run_query` retry loop (src/query.py lines 655-742) -/

/-- Classified outcome of one HTTP attempt inside `run_query`'s `while True`
loop: a 200 response with a JSON body, a 429, a 503, another status code, or
a raised timeout / connection exception. -/
inductive HttpAttempt where
  | ok (body : ℕ)
  | rateLimited
  | unavailable
  | status (code : ℕ)
  | timeoutErr
  | connErr
deriving Repr, DecidableEq

/-- Result of simulating `run_query` on a finite attempt sequence: the JSON
body of a 200, a raised exception, or — when the simulated sequence is
exhausted with the loop still retrying — `pending` with the current value of
the `retries` counter. -/
inductive QueryOutcome where
  | ok (body : ℕ)
  | raised
  | pending (retries : ℕ)
deriving Repr, DecidableEq

/-- `run_query(query, variables, retries)` (lines 655-742) on a simulated
attempt sequence, starting from `retries` (default 0): the outcome and the
list of `time.sleep` durations in order.  Constants from the source:
`base_sleep_429 = 30` and the counter reset `if retries > 9: retries = 0`
(lines 692-702), the fixed 60-second 503 sleep (lines 705-710), the raise on
any other status (line 712), `base_sleep_timeout = 5` with exponent cap
`min(retries, 6)` and bound `max_retries` (lines 716-730), and
`base_sleep_connection = 30` with bound `max_retries` (lines 732-742). -/
def runQuerySim (maxRetries : ℕ) : List HttpAttempt → ℕ → QueryOutcome × List ℕ
  | [], retries => (.pending retries, [])
  | a :: rest, retries =>
    match a with
    | .ok body => (.ok body, [])
    | .rateLimited =>
        let r := if retries > 9 then 0 else retries
        let k := runQuerySim maxRetries rest (r + 1)
        (k.1, 30 * 2 ^ r :: k.2)
    | .unavailable =>
        let k := runQuerySim maxRetries rest retries
        (k.1, 60 :: k.2)
    | .status _ => (.raised, [])
    | .timeoutErr =>
        let r := retries + 1
        if r > maxRetries then (.raised, [])
        else
          let k := runQuerySim maxRetries rest r
          (k.1, 5 * 2 ^ min r 6 :: k.2)
    | .connErr =>
        let r := retries + 1
        if r > maxRetries then (.raised, [])
        else
          let k := runQuerySim maxRetries rest r
          (k.1, 30 :: k.2)

/-! # Theorems -/

theorem alookup_aupdate (k p : ℕ) (f : α → α) (m : List (ℕ × α)) :
    alookup p (aupdate k f m) = if k = p then (alookup p m).map f else alookup p m := by
  induction m with
  | nil => by_cases h : k = p <;> simp [alookup, aupdate, h]
  | cons hd tl ih =>
    obtain ⟨k', v⟩ := hd
    by_cases hk : k' = k <;> by_cases hp : k' = p
    · subst hk; subst hp; simp [aupdate, alookup]
    · subst hk; simp [aupdate, alookup, hp]
    · subst hp
      have hk' : ¬ k = k' := fun h => hk h.symm
      simp [aupdate, alookup, hk, hk']
    · simp [aupdate, alookup, hk, hp, ih]

theorem alookup_aset (k p : ℕ) (v : α) (m : List (ℕ × α)) :
    alookup p (aset k v m) = if k = p then some v else alookup p m := by
  induction m with
  | nil => simp [aset, alookup]
  | cons hd tl ih =>
    obtain ⟨k', v'⟩ := hd
    by_cases hk : k' = k <;> by_cases hp : k' = p
    · subst hk; subst hp; simp [aset, alookup]
    · subst hk; simp [aset, alookup, hp]
    · subst hp
      have hk' : ¬ k = k' := fun h => hk h.symm
      simp [aset, alookup, hk, hk']
    · simp [aset, alookup, hk, hp, ih]

theorem map_fst_aupdate (k : ℕ) (f : α → α) (m : List (ℕ × α)) :
    (aupdate k f m).map Prod.fst = m.map Prod.fst := by
  induction m with
  | nil => rfl
  | cons hd tl ih =>
    obtain ⟨k', v⟩ := hd
    by_cases hk : k' = k <;> simp [aupdate, hk, ih]

theorem alookup_eq_none_iff (p : ℕ) (m : List (ℕ × α)) :
    alookup p m = none ↔ p ∉ m.map Prod.fst := by
  induction m with
  | nil => simp [alookup]
  | cons hd tl ih =>
    obtain ⟨k', v⟩ := hd
    by_cases hk : k' = p
    · subst hk; simp [alookup]
    · have hk' : ¬ p = k' := fun h => hk h.symm
      simp [alookup, hk, hk', ih]

theorem alookup_map_const (p : ℕ) (m : List (ℕ × α)) (c : β) :
    alookup p (m.map fun pv => (pv.1, c)) = (alookup p m).map (fun _ => c) := by
  induction m with
  | nil => simp [alookup]
  | cons hd tl ih =>
    obtain ⟨k', v⟩ := hd
    by_cases hk : k' = p <;> simp [alookup, hk, ih]

theorem alookup_eq_some_of_mem (p : ℕ) (v : α) (m : List (ℕ × α))
    (hnd : (m.map Prod.fst).Nodup) (hm : (p, v) ∈ m) : alookup p m = some v := by
  induction m with
  | nil => simp at hm
  | cons hd tl ih =>
    obtain ⟨k', v'⟩ := hd
    simp only [List.map_cons, List.nodup_cons] at hnd
    rcases List.mem_cons.mp hm with h | h
    · rw [← h]
      simp [alookup]
    · by_cases hk : k' = p
      · subst hk
        exact absurd (List.mem_map.mpr ⟨(k', v), h, rfl⟩) hnd.1
      · simp [alookup, hk, ih hnd.2 h]

theorem alookup_mem (p : ℕ) (v : α) (m : List (ℕ × α)) (h : alookup p m = some v) :
    (p, v) ∈ m := by
  induction m with
  | nil => simp [alookup] at h
  | cons hd tl ih =>
    obtain ⟨k', v'⟩ := hd
    by_cases hk : k' = p
    · subst hk
      simp [alookup] at h
      simp [h]
    · simp [alookup, hk] at h
      exact List.mem_cons_of_mem _ (ih h)

theorem alookup_perm (p : ℕ) (m₁ m₂ : List (ℕ × α))
    (hnd : (m₁.map Prod.fst).Nodup) (hperm : m₁.Perm m₂) :
    alookup p m₁ = alookup p m₂ := by
  rcases h : alookup p m₁ with _ | v
  · rw [alookup_eq_none_iff] at h
    have h2 : alookup p m₂ = none := by
      rw [alookup_eq_none_iff]
      exact fun hmem => h (((hperm.map Prod.fst).mem_iff).mpr hmem)
    rw [h2]
  · exact (alookup_eq_some_of_mem p v m₂ ((hperm.map Prod.fst).nodup_iff.mp hnd)
      (hperm.mem_iff.mp (alookup_mem p v m₁ h))).symm

/-! ### Characterization of the `results` dict (first loop of `apply_matches`) -/

theorem alookup_foldl_resultsStep (players : PMap) (ms : List (ℕ × ℕ))
    (acc : List (ℕ × List GTuple)) (p : ℕ) :
    alookup p (ms.foldl (resultsStep players) acc) =
      (alookup p acc).map (· ++ specTuples players ms p) := by
  induction ms generalizing acc with
  | nil =>
    simp only [List.foldl_nil, specTuples]
    rcases alookup p acc with _ | a <;> simp
  | cons m ms ih =>
    simp only [List.foldl_cons]
    rw [ih]
    rcases h1 : alookup m.1 players with _ | w
    · simp [resultsStep, specTuples, h1]
    rcases h2 : alookup m.2 players with _ | l
    · simp [resultsStep, specTuples, h1, h2]
    simp only [resultsStep, specTuples, h1, h2]
    rw [alookup_aupdate, alookup_aupdate]
    by_cases hw : m.1 = p <;> by_cases hl : m.2 = p <;>
      · simp only [hw, hl, ite_true, ite_false]
        rcases alookup p acc with _ | a <;> simp [hw, hl]

theorem alookup_resultsMap (players : PMap) (ms : List (ℕ × ℕ)) (p : ℕ) :
    alookup p (resultsMap players ms) =
      (alookup p players).map (fun _ => specTuples players ms p) := by
  rw [resultsMap, alookup_foldl_resultsStep, alookup_map_const]
  rcases alookup p players with _ | a <;> simp

theorem map_fst_resultsMap (players : PMap) (ms : List (ℕ × ℕ)) :
    (resultsMap players ms).map Prod.fst = players.map Prod.fst := by
  rw [resultsMap]
  have : ∀ acc : List (ℕ × List GTuple),
      (ms.foldl (resultsStep players) acc).map Prod.fst = acc.map Prod.fst := by
    induction ms with
    | nil => intro acc; rfl
    | cons m ms ih =>
      intro acc
      rw [List.foldl_cons, ih]
      rcases h1 : alookup m.1 players with _ | w <;> rcases h2 : alookup m.2 players with _ | l <;>
        simp [resultsStep, h1, h2, map_fst_aupdate]
  rw [this]
  simp

/-! ### Characterization of the second loop of `apply_matches` -/

theorem alookup_applyResults_of_none (upd : UpdFn) (entries : List (ℕ × List GTuple))
    (players : PMap) (p : ℕ) (h : p ∉ entries.map Prod.fst) :
    alookup p (applyResults upd entries players) = alookup p players := by
  induction entries generalizing players with
  | nil => rfl
  | cons e tl ih =>
    obtain ⟨k, g⟩ := e
    simp only [List.map_cons, List.mem_cons] at h
    push_neg at h
    rw [applyResults, List.foldl_cons, ← applyResults, ih _ h.2]
    dsimp only
    split_ifs with hg
    · rfl
    · rw [alookup_aupdate, if_neg (fun hh => h.1 hh.symm)]

theorem alookup_applyResults (upd : UpdFn) (entries : List (ℕ × List GTuple))
    (players : PMap) (p : ℕ) (g : List GTuple)
    (hnd : (entries.map Prod.fst).Nodup) (hg : alookup p entries = some g) :
    alookup p (applyResults upd entries players) =
      if g = [] then alookup p players
      else (alookup p players).map
        (fun p₀ => upd p₀ (g.map (·.1)) (g.map (·.2.1)) (g.map (·.2.2))) := by
  induction entries generalizing players with
  | nil => simp [alookup] at hg
  | cons e tl ih =>
    obtain ⟨k, gk⟩ := e
    simp only [List.map_cons, List.nodup_cons] at hnd
    by_cases hk : k = p
    · subst hk
      have hg' : gk = g := by simpa [alookup] using hg
      subst hg'
      rw [applyResults, List.foldl_cons, ← applyResults,
        alookup_applyResults_of_none _ _ _ _ hnd.1]
      dsimp only
      split_ifs with hgk
      · rfl
      · rw [alookup_aupdate, if_pos rfl]
    · have hg' : alookup p tl = some g := by simpa [alookup, hk] using hg
      rw [applyResults, List.foldl_cons, ← applyResults, ih _ hnd.2 hg']
      dsimp only
      split_ifs with h1 h2 <;>
        first
          | rfl
          | rw [alookup_aupdate, if_neg hk]

/-- C3: within a single `RatingService.apply_matches` call, every
(opponent rating, opponent deviation, outcome) tuple fed into any player's
`update_player` uses the opponent's values as they stood before any player in
the batch was updated: each player's final state is exactly the Glicko-2
update of its pre-batch state on the pre-batch snapshot tuples
`specTuples players ms p`, and the same holds for the second loop run over
any reordering (permutation) of the `results` dict entries. -/
theorem c3_snapshot_invariant (upd : UpdFn) (players : PMap) (ms : List (ℕ × ℕ))
    (p : ℕ) (p₀ : GPlayer)
    (hnd : (players.map Prod.fst).Nodup)
    (hp : alookup p players = some p₀) :
    (alookup p (applyMatches upd players ms) =
       some (if specTuples players ms p = [] then p₀
             else upd p₀ ((specTuples players ms p).map (·.1))
               ((specTuples players ms p).map (·.2.1))
               ((specTuples players ms p).map (·.2.2))))
    ∧ ∀ L : List (ℕ × List GTuple), L.Perm (resultsMap players ms) →
        alookup p (applyResults upd L players) =
          some (if specTuples players ms p = [] then p₀
                else upd p₀ ((specTuples players ms p).map (·.1))
                  ((specTuples players ms p).map (·.2.1))
                  ((specTuples players ms p).map (·.2.2))) := by
  have key : ∀ L : List (ℕ × List GTuple), L.Perm (resultsMap players ms) →
      alookup p (applyResults upd L players) =
        some (if specTuples players ms p = [] then p₀
              else upd p₀ ((specTuples players ms p).map (·.1))
                ((specTuples players ms p).map (·.2.1))
                ((specTuples players ms p).map (·.2.2))) := by
    intro L hperm
    have hndR : ((resultsMap players ms).map Prod.fst).Nodup := by
      rw [map_fst_resultsMap]; exact hnd
    have hndL : (L.map Prod.fst).Nodup := ((hperm.map Prod.fst).nodup_iff).mpr hndR
    have hgL : alookup p L = some (specTuples players ms p) := by
      rw [alookup_perm p L (resultsMap players ms) hndL hperm, alookup_resultsMap, hp]
      rfl
    rw [alookup_applyResults upd L players p _ hndL hgL]
    by_cases hsp : specTuples players ms p = []
    · simp [hsp, hp]
    · simp [hsp, hp]
  exact ⟨key _ (List.Perm.refl _), key⟩

/-- Witness for C3: the spec's A / B scenario — players 1, 2, 3 where 2 beat 3
and lost to 1, all inside one batch. -/
theorem c3_snapshot_invariant_witness :
    ((([(1, ⟨1500, 350, 1, 1⟩), (2, ⟨1400, 300, 1, 1⟩), (3, ⟨1600, 250, 1, 1⟩)] : PMap).map
        Prod.fst).Nodup
     ∧ alookup 2 ([(1, ⟨1500, 350, 1, 1⟩), (2, ⟨1400, 300, 1, 1⟩),
          (3, ⟨1600, 250, 1, 1⟩)] : PMap) = some ⟨1400, 300, 1, 1⟩)
    ∧ alookup 2
        (applyMatches (fun q _ _ _ => { q with rating := q.rating + 1 })
          ([(1, ⟨1500, 350, 1, 1⟩), (2, ⟨1400, 300, 1, 1⟩), (3, ⟨1600, 250, 1, 1⟩)] : PMap)
          [(1, 2), (2, 3)]) =
      some
        (if specTuples
              ([(1, ⟨1500, 350, 1, 1⟩), (2, ⟨1400, 300, 1, 1⟩),
                (3, ⟨1600, 250, 1, 1⟩)] : PMap) [(1, 2), (2, 3)] 2 = [] then
           ⟨1400, 300, 1, 1⟩
         else
           (fun (q : GPlayer) (_ : List ℚ) (_ : List ℚ) (_ : List ℕ) =>
              { q with rating := q.rating + 1 }) ⟨1400, 300, 1, 1⟩
             ((specTuples
                ([(1, ⟨1500, 350, 1, 1⟩), (2, ⟨1400, 300, 1, 1⟩),
                  (3, ⟨1600, 250, 1, 1⟩)] : PMap) [(1, 2), (2, 3)] 2).map (·.1))
             ((specTuples
                ([(1, ⟨1500, 350, 1, 1⟩), (2, ⟨1400, 300, 1, 1⟩),
                  (3, ⟨1600, 250, 1, 1⟩)] : PMap) [(1, 2), (2, 3)] 2).map (·.2.1))
             ((specTuples
                ([(1, ⟨1500, 350, 1, 1⟩), (2, ⟨1400, 300, 1, 1⟩),
                  (3, ⟨1600, 250, 1, 1⟩)] : PMap) [(1, 2), (2, 3)] 2).map (·.2.2))) :=
  ⟨⟨by decide, by decide⟩,
    (c3_snapshot_invariant (fun q _ _ _ => { q with rating := q.rating + 1 })
      ([(1, ⟨1500, 350, 1, 1⟩), (2, ⟨1400, 300, 1, 1⟩), (3, ⟨1600, 250, 1, 1⟩)] : PMap)
      [(1, 2), (2, 3)] 2 ⟨1400, 300, 1, 1⟩ (by decide) (by decide)).1⟩

/-- `appsOf` after one entrant-loop step. -/
theorem appsOf_entrantStep (st : EntrantState) (e : Entrant) (p : ℕ) :
    appsOf p (entrantStep st e).players =
      appsOf p st.players + (if e.playerId = p then 1 else 0) := by
  rcases h : alookup e.playerId st.players with _ | q
  · simp only [entrantStep, h, appsOf, alookup_aset]
    by_cases hp : e.playerId = p
    · subst hp
      simp [h, newGPlayer]
    · simp [hp]
  · simp only [entrantStep, h, appsOf, alookup_aupdate]
    by_cases hp : e.playerId = p
    · subst hp
      simp [h]
    · simp [hp]

/-- C8: for every player `p`, the entrant loop of `process_event` adds exactly
one appearance increment per entrant occurrence whose (first participant's)
player id is `p`: a first-seen player ends at `appearances = k` (initialized
to 1 on the first occurrence, incremented on each further one) and a
previously known player at its previous count plus `k`, with no deduplication
of entrants by player id. -/
theorem c8_appearance_counting (entrants : List Entrant) (st : EntrantState) (p : ℕ) :
    appsOf p (entrantLoop entrants st).players =
      appsOf p st.players + countPlayer p entrants := by
  induction entrants generalizing st with
  | nil => simp [entrantLoop, countPlayer]
  | cons e es ih =>
    have step : entrantLoop (e :: es) st = entrantLoop es (entrantStep st e) := rfl
    rw [step, ih, appsOf_entrantStep]
    simp [countPlayer]
    omega

/-- C9: `run_query` treats any number of consecutive 503 responses as
always-transient: each one sleeps exactly the fixed 60 seconds and retries
unconditionally, the bounded `retries` counter is left untouched (so 503s
never count toward `max_retries`, for any `max_retries`), and the loop never
raises. -/
theorem c9_unavailable_fixed_sleep (maxRetries n retries : ℕ) :
    runQuerySim maxRetries (List.replicate n .unavailable) retries =
      (.pending retries, List.replicate n 60) := by
  induction n with
  | zero => simp [runQuerySim]
  | succ k ih => simp [List.replicate_succ, runQuerySim, ih]

theorem getD_map_range (f : ℕ → ℕ) (n i : ℕ) (h : i < n) :
    ((List.range n).map f).getD i 0 = f i := by
  have hlen : i < ((List.range n).map f).length := by simpa using h
  rw [List.getD_eq_getElem _ _ hlen]
  simp

theorem runQuerySim_rate_trace (m : ℕ) :
    ∀ (n r : ℕ), r ≤ 10 →
      (runQuerySim m (List.replicate n .rateLimited) r).2 =
        (List.range n).map
          (fun i => 30 * 2 ^ (((if r > 9 then 0 else r) + i) % 10)) := by
  intro n
  induction n with
  | zero => intro r _; simp [runQuerySim]
  | succ k ih =>
    intro r hr
    rw [List.replicate_succ]
    have hstep : runQuerySim m (.rateLimited :: List.replicate k .rateLimited) r =
        ((runQuerySim m (List.replicate k .rateLimited) ((if r > 9 then 0 else r) + 1)).1,
          30 * 2 ^ (if r > 9 then 0 else r) ::
            (runQuerySim m (List.replicate k .rateLimited) ((if r > 9 then 0 else r) + 1)).2) :=
      rfl
    rw [hstep]
    dsimp only
    rw [ih _ (by split <;> omega)]
    rw [List.range_succ_eq_map, List.map_cons, List.map_map]
    congr 1
    · have : ((if r > 9 then 0 else r) + 0) % 10 = (if r > 9 then 0 else r) := by
        split <;> omega
      rw [this]
    · apply List.map_congr_left
      intro i _
      simp only [Function.comp_apply]
      have hexp :
          ((if (if r > 9 then 0 else r) + 1 > 9 then 0 else (if r > 9 then 0 else r) + 1) + i)
              % 10 =
            ((if r > 9 then 0 else r) + Nat.succ i) % 10 := by
        split_ifs <;> omega
      rw [hexp]

theorem runQuerySim_rate_not_raised (m : ℕ) :
    ∀ (n r : ℕ), (runQuerySim m (List.replicate n .rateLimited) r).1 ≠ .raised := by
  intro n
  induction n with
  | zero => intro r; simp [runQuerySim]
  | succ k ih =>
    intro r
    have hstep : (runQuerySim m (.rateLimited :: List.replicate k .rateLimited) r).1 =
        (runQuerySim m (List.replicate k .rateLimited) ((if r > 9 then 0 else r) + 1)).1 :=
      rfl
    rw [List.replicate_succ, hstep]
    exact ih _

/-- C6: for consecutive 429 responses starting from `retries = 0`, the sleep
durations computed by `run_query` are `30 * 2 ^ (i % 10)`: they start at the
30-second base, double on each consecutive hit, are non-decreasing up to the
10-hit reset cap, restart from the base on the 11th consecutive hit, and a
429 never makes `run_query` raise. -/
theorem c6_rate_limit_backoff (maxRetries n : ℕ) :
    (runQuerySim maxRetries (List.replicate n .rateLimited) 0).2 =
      (List.range n).map (fun i => 30 * 2 ^ (i % 10))
    ∧ (∀ i j : ℕ, i ≤ j → j < 10 → j < n →
        ((runQuerySim maxRetries (List.replicate n .rateLimited) 0).2).getD i 0 ≤
          ((runQuerySim maxRetries (List.replicate n .rateLimited) 0).2).getD j 0)
    ∧ (10 < n →
        ((runQuerySim maxRetries (List.replicate n .rateLimited) 0).2).getD 0 0 = 30
        ∧ ((runQuerySim maxRetries (List.replicate n .rateLimited) 0).2).getD 10 0 = 30)
    ∧ (runQuerySim maxRetries (List.replicate n .rateLimited) 0).1 ≠ .raised := by
  have htr : (runQuerySim maxRetries (List.replicate n .rateLimited) 0).2 =
      (List.range n).map (fun i => 30 * 2 ^ (i % 10)) := by
    have := runQuerySim_rate_trace maxRetries n 0 (by omega)
    simpa using this
  refine ⟨htr, ?_, ?_, runQuerySim_rate_not_raised maxRetries n 0⟩
  · intro i j hij hj10 hjn
    rw [htr, getD_map_range _ _ _ (lt_of_le_of_lt hij hjn), getD_map_range _ _ _ hjn]
    have hi : i % 10 = i := Nat.mod_eq_of_lt (by omega)
    have hjm : j % 10 = j := Nat.mod_eq_of_lt (by omega)
    rw [hi, hjm]
    exact Nat.mul_le_mul_left _ (Nat.pow_le_pow_right (by omega) hij)
  · intro hn
    constructor
    · rw [htr, getD_map_range _ _ _ (by omega)]
      norm_num
    · rw [htr, getD_map_range _ _ _ (by omega)]
      norm_num

/-- Witness for C6 at 12 consecutive 429s: the trace is the doubling sequence,
sleep 3 ≤ sleep 7, sleeps 0 and 10 are the 30-second base, and the loop has
not raised. -/
theorem c6_rate_limit_backoff_witness :
    (runQuerySim 5 (List.replicate 12 .rateLimited) 0).2 =
      (List.range 12).map (fun i => 30 * 2 ^ (i % 10))
    ∧ ((runQuerySim 5 (List.replicate 12 .rateLimited) 0).2).getD 3 0 ≤
        ((runQuerySim 5 (List.replicate 12 .rateLimited) 0).2).getD 7 0
    ∧ ((runQuerySim 5 (List.replicate 12 .rateLimited) 0).2).getD 0 0 = 30
    ∧ ((runQuerySim 5 (List.replicate 12 .rateLimited) 0).2).getD 10 0 = 30
    ∧ (runQuerySim 5 (List.replicate 12 .rateLimited) 0).1 ≠ .raised :=
  ⟨(c6_rate_limit_backoff 5 12).1,
    (c6_rate_limit_backoff 5 12).2.1 3 7 (by decide) (by decide) (by decide),
    ((c6_rate_limit_backoff 5 12).2.2.1 (by decide)).1,
    ((c6_rate_limit_backoff 5 12).2.2.1 (by decide)).2,
    (c6_rate_limit_backoff 5 12).2.2.2⟩

/-- The kwarg-bearing `process_tournament(...)` call site always raises
`TypeError` (`update_discriminator` is not a parameter), whatever the body. -/
theorem callProcessTournament_eq (body : Except PyErr Unit) :
    callProcessTournament body =
      Except.error (PyErr.typeError "got an unexpected keyword argument") := rfl

/-- The zero-argument `update_with_discriminator()` call site always raises
`TypeError` (`supabase` is required), whatever the body. -/
theorem callUpdateWithDiscriminator_eq (body : Except PyErr Unit) :
    callUpdateWithDiscriminator body =
      Except.error (PyErr.typeError "missing a required positional argument") := rfl

theorem mainLoop_fail (e0 : PyErr) (proc : String → Except PyErr Unit)
    (hproc : ∀ s, proc s = .error e0) (args : MainArgs)
    (hdry : args.dryRun = false) (hcont : args.continueOnError = false)
    (hmt : args.maxTournaments = none) :
    ∀ (nodes : List TNode) (st : LoopState), (∃ x ∈ nodes, x.slug ≠ "") →
      ∃ st', mainLoop proc args nodes st = (st', some e0)
        ∧ st'.processed = st.processed ∧ st'.failed = st.failed + 1 := by
  intro nodes
  induction nodes with
  | nil => intro st h; simp at h
  | cons n rest ih =>
    intro st hex
    by_cases hslug : n.slug = ""
    · have hex' : ∃ x ∈ rest, x.slug ≠ "" := by
        rcases hex with ⟨x, hx, hxs⟩
        rcases List.mem_cons.mp hx with rfl | hx'
        · exact absurd hslug hxs
        · exact ⟨x, hx', hxs⟩
      have hstep : mainLoop proc args (n :: rest) st = mainLoop proc args rest st := by
        simp [mainLoop, hslug]
      rw [hstep]
      exact ih st hex'
    · refine ⟨{ st with seen := st.seen + 1, maxEndAt := bumpMax st.maxEndAt n.endAt, failed := st.failed + 1 }, ?_, rfl, rfl⟩
      simp [mainLoop, hslug, hmt, maxTReached, hdry, hproc, hcont]

theorem mainLoop_ok (proc : String → Except PyErr Unit)
    (hproc : ∀ s, proc s = .ok ()) (args : MainArgs)
    (hdry : args.dryRun = false) (hmt : args.maxTournaments = none) :
    ∀ (nodes : List TNode) (st : LoopState),
      ∃ st', mainLoop proc args nodes st = (st', none)
        ∧ st'.processed = st.processed + countSlugs nodes := by
  intro nodes
  induction nodes with
  | nil => intro st; exact ⟨st, rfl, by simp [countSlugs]⟩
  | cons n rest ih =>
    intro st
    by_cases hslug : n.slug = ""
    · obtain ⟨st', heq, hp⟩ := ih st
      have hstep : mainLoop proc args (n :: rest) st = mainLoop proc args rest st := by
        simp [mainLoop, hslug]
      exact ⟨st', by rw [hstep]; exact heq, by rw [hp]; simp [countSlugs, hslug]⟩
    · obtain ⟨st', heq, hp⟩ := ih { st with seen := st.seen + 1, maxEndAt := bumpMax st.maxEndAt n.endAt, processed := st.processed + 1, processedMaxEndAt := bumpMax st.processedMaxEndAt n.endAt }
      have hstep : mainLoop proc args (n :: rest) st =
          mainLoop proc args rest { st with seen := st.seen + 1, maxEndAt := bumpMax st.maxEndAt n.endAt, processed := st.processed + 1, processedMaxEndAt := bumpMax st.processedMaxEndAt n.endAt } := by
        simp [mainLoop, hslug, hmt, maxTReached, hdry, hproc]
      refine ⟨st', by rw [hstep]; exact heq, ?_⟩
      rw [hp]
      simp [countSlugs, hslug]
      omega

theorem countSlugs_pos (nodes : List TNode) (hex : ∃ x ∈ nodes, x.slug ≠ "") :
    0 < countSlugs nodes := by
  induction nodes with
  | nil => simp at hex
  | cons n rest ih =>
    by_cases hslug : n.slug = ""
    · have hex' : ∃ x ∈ rest, x.slug ≠ "" := by
        rcases hex with ⟨x, hx, hxs⟩
        rcases List.mem_cons.mp hx with rfl | hx'
        · exact absurd hslug hxs
        · exact ⟨x, hx', hxs⟩
      simpa [countSlugs, hslug] using ih hex'
    · simp [countSlugs, hslug]

/-- In every run of `main`, `set_timestamp` is unreachable: the final
`update_with_discriminator()` call raises before it whenever the loop
completes with `processed > 0`, so the watermark is never written. -/
theorem mainRun_watermark_none (proc : String → Except PyErr Unit)
    (bodyU : Except PyErr Unit) (stored : ℤ) (args : MainArgs) (nodes : List TNode) :
    (mainRun proc (callUpdateWithDiscriminator bodyU) stored args nodes).watermark = none := by
  rw [mainRun.eq_def]
  dsimp only
  rcases hr : (mainLoop proc args nodes
      ⟨args.afterDate.getD stored, args.afterDate.getD stored, 0, 0, 0⟩).2 with _ | e
  · by_cases hdry : args.dryRun
    · simp [hdry]
    · by_cases hzero : (mainLoop proc args nodes
          ⟨args.afterDate.getD stored, args.afterDate.getD stored, 0, 0, 0⟩).1.processed ≠ 0
      · simp [hdry, hzero, callUpdateWithDiscriminator_eq]
      · simp [hdry, hzero]
  · simp

/-- C2: the per-tournament step of `seed_tournaments.main` (line 220) passes
the keyword `update_discriminator` to `process_tournament`, which only has
parameters `event_slug` and `saved_games`, so the call raises `TypeError`
before the method body (hence any event processing) runs; with default
options (`continue_on_error = False`, no dry run, no cutoff) the run aborts
on the first non-empty-slug tournament — nothing is processed, exactly one
failure is counted, and the watermark is never written. -/
theorem c2_process_tournament_kwarg_typeerror
    (stored : ℤ) (afterArg : Option ℤ) (maxErrors : ℤ) (nodes : List TNode)
    (bodyOf : String → Except PyErr Unit) (updDisc : Except PyErr Unit)
    (hex : ∃ x ∈ nodes, x.slug ≠ "") :
    (∀ body, callProcessTournament body =
        Except.error (PyErr.typeError "got an unexpected keyword argument"))
    ∧ (mainRun (fun s => callProcessTournament (bodyOf s)) updDisc stored
        ⟨afterArg, false, false, maxErrors, none⟩ nodes).aborted = true
    ∧ (mainRun (fun s => callProcessTournament (bodyOf s)) updDisc stored
        ⟨afterArg, false, false, maxErrors, none⟩ nodes).watermark = none
    ∧ (mainRun (fun s => callProcessTournament (bodyOf s)) updDisc stored
        ⟨afterArg, false, false, maxErrors, none⟩ nodes).state.processed = 0
    ∧ (mainRun (fun s => callProcessTournament (bodyOf s)) updDisc stored
        ⟨afterArg, false, false, maxErrors, none⟩ nodes).state.failed = 1 := by
  obtain ⟨st', heq, hp, hf⟩ :=
    mainLoop_fail (PyErr.typeError "got an unexpected keyword argument")
      (fun s => callProcessTournament (bodyOf s))
      (fun s => callProcessTournament_eq (bodyOf s))
      ⟨afterArg, false, false, maxErrors, none⟩ rfl rfl rfl nodes
      ⟨afterArg.getD stored, afterArg.getD stored, 0, 0, 0⟩ hex
  refine ⟨fun b => callProcessTournament_eq b, ?_, ?_, ?_, ?_⟩ <;>
    simp [mainRun.eq_def, heq, hp, hf]

/-- Witness for C2 at a concrete single-tournament run. -/
theorem c2_process_tournament_kwarg_typeerror_witness :
    (∃ x ∈ [TNode.mk "tournament/x" (some 100)], x.slug ≠ "")
    ∧ (mainRun (fun s => callProcessTournament ((fun _ => .ok ()) s)) (.ok ()) 0
        ⟨none, false, false, 25, none⟩ [TNode.mk "tournament/x" (some 100)]).aborted = true
    ∧ (mainRun (fun s => callProcessTournament ((fun _ => .ok ()) s)) (.ok ()) 0
        ⟨none, false, false, 25, none⟩ [TNode.mk "tournament/x" (some 100)]).watermark = none
    ∧ (mainRun (fun s => callProcessTournament ((fun _ => .ok ()) s)) (.ok ()) 0
        ⟨none, false, false, 25, none⟩
          [TNode.mk "tournament/x" (some 100)]).state.processed = 0
    ∧ (mainRun (fun s => callProcessTournament ((fun _ => .ok ()) s)) (.ok ()) 0
        ⟨none, false, false, 25, none⟩
          [TNode.mk "tournament/x" (some 100)]).state.failed = 1 :=
  ⟨⟨TNode.mk "tournament/x" (some 100), by simp, by simp⟩,
    (c2_process_tournament_kwarg_typeerror 0 none 25 _ (fun _ => .ok ()) (.ok ())
      ⟨TNode.mk "tournament/x" (some 100), by simp, by simp⟩).2.1,
    (c2_process_tournament_kwarg_typeerror 0 none 25 _ (fun _ => .ok ()) (.ok ())
      ⟨TNode.mk "tournament/x" (some 100), by simp, by simp⟩).2.2.1,
    (c2_process_tournament_kwarg_typeerror 0 none 25 _ (fun _ => .ok ()) (.ok ())
      ⟨TNode.mk "tournament/x" (some 100), by simp, by simp⟩).2.2.2.1,
    (c2_process_tournament_kwarg_typeerror 0 none 25 _ (fun _ => .ok ()) (.ok ())
      ⟨TNode.mk "tournament/x" (some 100), by simp, by simp⟩).2.2.2.2⟩

/-- C10: the final `update_with_discriminator()` call of
`process_tournament` (line 164) passes zero arguments although `supabase` is
a required positional parameter, so a tournament whose whole event loop
completed still raises `TypeError` — after the `videogame_mapping` upsert was
already performed (the tournament step is not atomic on this error); the same
zero-argument call sits after the processing loop of `seed_tournaments.main`
(line 241), so even a run whose tournaments all processed successfully aborts
there and never reaches the watermark write. -/
theorem c10_zero_arg_update_typeerror
    (stored : ℤ) (afterArg : Option ℤ) (cont : Bool) (maxErrors : ℤ)
    (nodes : List TNode) (bodyU : Except PyErr Unit)
    (hex : ∃ x ∈ nodes, x.slug ≠ "") :
    (∀ body, processTournamentFinish body =
        ([TailEffect.upsertVideogameMapping],
          Except.error (PyErr.typeError "missing a required positional argument")))
    ∧ (mainRun (fun _ => .ok ()) (callUpdateWithDiscriminator bodyU) stored
        ⟨afterArg, false, cont, maxErrors, none⟩ nodes).aborted = true
    ∧ (mainRun (fun _ => .ok ()) (callUpdateWithDiscriminator bodyU) stored
        ⟨afterArg, false, cont, maxErrors, none⟩ nodes).watermark = none := by
  obtain ⟨st', heq, hp⟩ := mainLoop_ok (fun _ => .ok ()) (fun _ => rfl)
    ⟨afterArg, false, cont, maxErrors, none⟩ rfl rfl nodes
    ⟨afterArg.getD stored, afterArg.getD stored, 0, 0, 0⟩
  have hpos : st'.processed ≠ 0 := by
    have := countSlugs_pos nodes hex
    omega
  refine ⟨fun body => by simp [processTournamentFinish, callUpdateWithDiscriminator_eq],
    ?_, ?_⟩ <;>
    simp [mainRun.eq_def, heq, hpos, callUpdateWithDiscriminator_eq]

/-- Witness for C10 at a concrete run whose single tournament processes
successfully end to end. -/
theorem c10_zero_arg_update_typeerror_witness :
    (∃ x ∈ [TNode.mk "tournament/y" (some 7)], x.slug ≠ "")
    ∧ processTournamentFinish (.ok ()) =
        ([TailEffect.upsertVideogameMapping],
          Except.error (PyErr.typeError "missing a required positional argument"))
    ∧ (mainRun (fun _ => .ok ()) (callUpdateWithDiscriminator (.ok ())) 0
        ⟨none, false, false, 25, none⟩ [TNode.mk "tournament/y" (some 7)]).aborted = true
    ∧ (mainRun (fun _ => .ok ()) (callUpdateWithDiscriminator (.ok ())) 0
        ⟨none, false, false, 25, none⟩
          [TNode.mk "tournament/y" (some 7)]).watermark = none :=
  ⟨⟨TNode.mk "tournament/y" (some 7), by decide, by decide⟩,
    (c10_zero_arg_update_typeerror 0 none false 25 [TNode.mk "tournament/y" (some 7)] (.ok ())
      ⟨TNode.mk "tournament/y" (some 7), by decide, by decide⟩).1 (.ok ()),
    (c10_zero_arg_update_typeerror 0 none false 25 [TNode.mk "tournament/y" (some 7)] (.ok ())
      ⟨TNode.mk "tournament/y" (some 7), by decide, by decide⟩).2.1,
    (c10_zero_arg_update_typeerror 0 none false 25 [TNode.mk "tournament/y" (some 7)] (.ok ())
      ⟨TNode.mk "tournament/y" (some 7), by decide, by decide⟩).2.2⟩

/-- C5: watermark bounds of a bulk run, on the code as written.  The stored
watermark after a run is always ≥ its value before (conjunct 1), and whenever
it is written it equals the successful-tournaments maximum (conjunct 2) —
but both hold degenerately, because the zero-argument
`update_with_discriminator()` call at line 241 raises before
`set_timestamp` can ever run (and the `process_tournament` call itself raises
per C2), so the watermark is in fact never written (conjunct 3). -/
theorem c5_watermark_monotone (stored : ℤ) (args : MainArgs) (nodes : List TNode)
    (bodyOf : String → Except PyErr Unit) (bodyU : Except PyErr Unit) :
    stored ≤ storedAfter (mainRun (fun s => callProcessTournament (bodyOf s))
        (callUpdateWithDiscriminator bodyU) stored args nodes) stored
    ∧ (∀ w, (mainRun (fun s => callProcessTournament (bodyOf s))
        (callUpdateWithDiscriminator bodyU) stored args nodes).watermark = some w →
          w = successfulMaxEnd (fun s => callProcessTournament (bodyOf s))
            (args.afterDate.getD stored) nodes)
    ∧ (mainRun (fun s => callProcessTournament (bodyOf s))
        (callUpdateWithDiscriminator bodyU) stored args nodes).watermark = none := by
  have hnone := mainRun_watermark_none (fun s => callProcessTournament (bodyOf s))
    bodyU stored args nodes
  refine ⟨?_, ?_, hnone⟩
  · rw [storedAfter, hnone]
    simp
  · intro w hw
    rw [hnone] at hw
    cases hw

/-- Witness for C5 at a concrete run. -/
theorem c5_watermark_monotone_witness :
    (1000 : ℤ) ≤ storedAfter (mainRun (fun s => callProcessTournament ((fun _ => .ok ()) s))
        (callUpdateWithDiscriminator (.ok ())) 1000 ⟨some 0, false, false, 25, none⟩
        [TNode.mk "tournament/z" (some 500)]) 1000
    ∧ (mainRun (fun s => callProcessTournament ((fun _ => .ok ()) s))
        (callUpdateWithDiscriminator (.ok ())) 1000 ⟨some 0, false, false, 25, none⟩
        [TNode.mk "tournament/z" (some 500)]).watermark = none :=
  ⟨(c5_watermark_monotone 1000 ⟨some 0, false, false, 25, none⟩
      [TNode.mk "tournament/z" (some 500)] (fun _ => .ok ()) (.ok ())).1,
    (c5_watermark_monotone 1000 ⟨some 0, false, false, 25, none⟩
      [TNode.mk "tournament/z" (some 500)] (fun _ => .ok ()) (.ok ())).2.2⟩

/-- History rows recorded by `process_event` are exactly the produced
matches: the batch loop appends, for every produced match, one
`history_repo.record` row (lines 47-50). -/
theorem history_matchList_inv (upd : UpdFn) (setsOf : ℕ → List GameSet)
    (e2p : List (ℕ × ℕ)) :
    ∀ (bl : List (List ℕ)) (st : BatchState), st.history = st.matchList.map untag →
      (bl.foldl (runBatch upd setsOf e2p) st).history =
        ((bl.foldl (runBatch upd setsOf e2p) st).matchList).map untag := by
  intro bl
  induction bl with
  | nil => intro st h; exact h
  | cons b rest ih =>
    intro st h
    rw [List.foldl_cons]
    apply ih
    simp [runBatch, h]

/-- C7: a set whose declared slots include an entrant id with no player
mapping is dropped entirely and silently — the inner loop step returns the
match list unchanged (only marking the set id seen), so the set contributes
no match and hence no history row (history rows are exactly the produced
matches) — and `apply_matches` likewise silently drops a match whose winner
or loser id is absent from the player map, leaving the update identical to
the one without that match. -/
theorem c7_unmapped_slot_dropped (e2p : List (ℕ × ℕ)) (acc : List STriple)
    (seen : List ℕ) (g : GameSet) (upd : UpdFn) (players : PMap) (w l : ℕ)
    (ms : List (ℕ × ℕ))
    (hslot : alookup g.slot1 e2p = none ∨ alookup g.slot2 e2p = none)
    (hpl : alookup w players = none ∨ alookup l players = none) :
    stepSet e2p (acc, seen) g = (acc, if g.sid ∈ seen then seen else g.sid :: seen)
    ∧ applyMatches upd players ((w, l) :: ms) = applyMatches upd players ms
    ∧ ∀ (setsOf : ℕ → List GameSet) (entrants : List Entrant) (players0 : PMap)
        (names0 : List (ℕ × String)),
        (processEvent upd setsOf entrants players0 names0).2.history =
          ((processEvent upd setsOf entrants players0 names0).2.matchList).map untag := by
  refine ⟨?_, ?_, ?_⟩
  · by_cases hmem : g.sid ∈ seen
    · simp [stepSet, hmem]
    · rcases hslot with h | h
      · simp [stepSet, hmem, h]
      · rcases h1 : alookup g.slot1 e2p with _ | p1 <;> simp [stepSet, hmem, h, h1]
  · have hstep : resultsStep players (players.map fun pv => (pv.1, ([] : List GTuple))) (w, l)
        = players.map fun pv => (pv.1, ([] : List GTuple)) := by
      rcases hpl with h | h
      · simp [resultsStep, h]
      · rcases h1 : alookup w players with _ | wp <;> simp [resultsStep, h, h1]
    rw [applyMatches, applyMatches, resultsMap, resultsMap, List.foldl_cons, hstep]
  · intro setsOf entrants players0 names0
    exact history_matchList_inv upd setsOf
      (entrantLoop entrants ⟨players0, names0, [], []⟩).e2p
      (chunksOf 25 (entrantLoop entrants ⟨players0, names0, [], []⟩).entrantIds)
      ⟨(entrantLoop entrants ⟨players0, names0, [], []⟩).players, [], [], [], []⟩ rfl

/-- Witness for C7: set 100's second slot (entrant 2) has no player mapping,
and match (10, 99) references the unknown player 99. -/
theorem c7_unmapped_slot_dropped_witness :
    (alookup (GameSet.mk 100 1 1 2).slot1 [(1, 10)] = none
      ∨ alookup (GameSet.mk 100 1 1 2).slot2 [(1, 10)] = none)
    ∧ (alookup 10 [(10, newGPlayer)] = none ∨ alookup 99 [(10, newGPlayer)] = none)
    ∧ stepSet [(1, 10)] ([], []) (GameSet.mk 100 1 1 2) = ([], [100])
    ∧ applyMatches (fun p _ _ _ => p) [(10, newGPlayer)] [(10, 99)] =
        applyMatches (fun p _ _ _ => p) [(10, newGPlayer)] [] :=
  ⟨Or.inr (by decide), Or.inr (by decide),
    (c7_unmapped_slot_dropped [(1, 10)] [] [] (GameSet.mk 100 1 1 2)
      (fun p _ _ _ => p) [(10, newGPlayer)] 10 99 [] (Or.inr (by decide))
      (Or.inr (by decide))).1,
    (c7_unmapped_slot_dropped [(1, 10)] [] [] (GameSet.mk 100 1 1 2)
      (fun p _ _ _ => p) [(10, newGPlayer)] 10 99 [] (Or.inr (by decide))
      (Or.inr (by decide))).2.1⟩

theorem entrantStep_entrantIds (st : EntrantState) (e : Entrant) :
    (entrantStep st e).entrantIds = st.entrantIds ++ [e.id] := by
  rcases h : alookup e.playerId st.players with _ | q <;> simp [entrantStep, h]

theorem entrantLoop_entrantIds (entrants : List Entrant) (st : EntrantState) :
    (entrantLoop entrants st).entrantIds = st.entrantIds ++ entrants.map (·.id) := by
  induction entrants generalizing st with
  | nil => simp [entrantLoop]
  | cons e es ih =>
    have hstep : entrantLoop (e :: es) st = entrantLoop es (entrantStep st e) := rfl
    rw [hstep, ih, entrantStep_entrantIds]
    simp

theorem map_fst_aset_of_none (k : ℕ) (v : α) (m : List (ℕ × α))
    (h : alookup k m = none) :
    (aset k v m).map Prod.fst = m.map Prod.fst ++ [k] := by
  induction m with
  | nil => rfl
  | cons hd tl ih =>
    obtain ⟨k', v'⟩ := hd
    by_cases hk : k' = k
    · subst hk
      simp [alookup] at h
    · simp only [alookup, if_neg hk] at h
      simp [aset, hk, ih h]

theorem entrantStep_nodup (st : EntrantState) (e : Entrant)
    (h : (st.players.map Prod.fst).Nodup) :
    ((entrantStep st e).players.map Prod.fst).Nodup := by
  rcases hl : alookup e.playerId st.players with _ | q
  · have hpl : (entrantStep st e).players = aset e.playerId newGPlayer st.players := by
      simp [entrantStep, hl]
    rw [hpl, map_fst_aset_of_none _ _ _ hl, List.nodup_append]
    refine ⟨h, by simp, ?_⟩
    have hmem := (alookup_eq_none_iff e.playerId st.players).mp hl
    simp only [List.disjoint_singleton]
    exact hmem
  · have hpl : (entrantStep st e).players =
        aupdate e.playerId (fun p => { p with appearances := p.appearances + 1 })
          st.players := by
      simp [entrantStep, hl]
    rw [hpl, map_fst_aupdate]
    exact h

theorem entrantLoop_nodup (entrants : List Entrant) (st : EntrantState)
    (h : (st.players.map Prod.fst).Nodup) :
    ((entrantLoop entrants st).players.map Prod.fst).Nodup := by
  induction entrants generalizing st with
  | nil => exact h
  | cons e es ih => exact ih _ (entrantStep_nodup st e h)

theorem chunksOfAux_nil (n fuel : ℕ) : chunksOfAux n fuel ([] : List α) = [] := by
  cases fuel <;> rfl

theorem chunksOfAux_congr (n : ℕ) :
    ∀ (f1 f2 : ℕ) (l : List α), l.length ≤ f1 → l.length ≤ f2 →
      chunksOfAux n f1 l = chunksOfAux n f2 l := by
  intro f1
  induction f1 with
  | zero =>
    intro f2 l h1 _
    have hl : l = [] := List.eq_nil_of_length_eq_zero (Nat.le_zero.mp h1)
    subst hl
    rw [chunksOfAux_nil, chunksOfAux_nil]
  | succ f ih =>
    intro f2 l h1 h2
    cases l with
    | nil => rw [chunksOfAux_nil, chunksOfAux_nil]
    | cons x xs =>
      cases f2 with
      | zero => simp at h2
      | succ f2' =>
        show (x :: xs.take (n - 1)) :: chunksOfAux n f (xs.drop (n - 1)) =
          (x :: xs.take (n - 1)) :: chunksOfAux n f2' (xs.drop (n - 1))
        congr 1
        have hlen : (xs.drop (n - 1)).length ≤ xs.length := by
          rw [List.length_drop]
          omega
        apply ih
        · simp only [List.length_cons] at h1
          omega
        · simp only [List.length_cons] at h2
          omega

theorem chunksOf_eq_single (n : ℕ) (l : List α) (hne : l ≠ []) (hlen : l.length ≤ n) :
    chunksOf n l = [l] := by
  cases l with
  | nil => exact absurd rfl hne
  | cons x xs =>
    show (x :: xs.take (n - 1)) :: chunksOfAux n xs.length (xs.drop (n - 1)) = [x :: xs]
    simp only [List.length_cons] at hlen
    have ht : xs.take (n - 1) = xs := List.take_of_length_le (by omega)
    have hd : xs.drop (n - 1) = [] := List.drop_eq_nil_of_le (by omega)
    rw [ht, hd, chunksOfAux_nil]

theorem updateCalls_nil (players : PMap) : updateCalls players [] = [] := by
  show (players.map fun pv => (pv.1, ([] : List GTuple))).filter
      (fun pg => !pg.2.isEmpty) = []
  induction players with
  | nil => rfl
  | cons hd tl ih => simp [ih]

theorem countCalls_eq_zero_of_not_mem (p : ℕ) (L : List (ℕ × List GTuple))
    (h : p ∉ L.map Prod.fst) : countCalls p L = 0 := by
  induction L with
  | nil => rfl
  | cons c cs ih =>
    simp only [List.map_cons, List.mem_cons] at h
    push_neg at h
    have hne : ¬ c.1 = p := fun hh => h.1 hh.symm
    simp [countCalls, hne, ih h.2]

theorem countCalls_le_one_of_nodup (p : ℕ) (L : List (ℕ × List GTuple))
    (h : (L.map Prod.fst).Nodup) : countCalls p L ≤ 1 := by
  induction L with
  | nil => simp [countCalls]
  | cons c cs ih =>
    simp only [List.map_cons, List.nodup_cons] at h
    by_cases hc : c.1 = p
    · subst hc
      have hz : countCalls c.1 cs = 0 := countCalls_eq_zero_of_not_mem _ _ h.1
      simp [countCalls, hz]
    · simp only [countCalls, if_neg hc]
      simpa using ih h.2

theorem countCalls_filter_le (p : ℕ) (f : ℕ × List GTuple → Bool)
    (L : List (ℕ × List GTuple)) : countCalls p (L.filter f) ≤ countCalls p L := by
  induction L with
  | nil => simp [countCalls]
  | cons c cs ih =>
    rw [List.filter_cons]
    by_cases hf : f c
    · simp only [hf, if_pos, ite_true, countCalls]
      exact Nat.add_le_add_left ih _
    · simp only [hf, ite_false, countCalls, Bool.false_eq_true, if_neg]
      exact le_trans ih (Nat.le_add_left _ _)

/-- C1 (amended): `process_event` invokes `apply_matches` once per entrant
sub-batch, not once per event; only when the event has at most
`max_batch_size = 25` entrants — a single sub-batch — is the Rating Engine
invoked exactly once per player over the full collection of the event's
matches: the recorded `update_player` invocations are then exactly those of
one `apply_matches` call on the whole event match list, and no player is
updated more than once. -/
theorem c1_single_subbatch_full_update (upd : UpdFn) (setsOf : ℕ → List GameSet)
    (entrants : List Entrant) (players0 : PMap) (names0 : List (ℕ × String))
    (hkeys : (players0.map Prod.fst).Nodup) (h25 : entrants.length ≤ 25) :
    (processEvent upd setsOf entrants players0 names0).2.calls =
      updateCalls (processEvent upd setsOf entrants players0 names0).1.players
        (((processEvent upd setsOf entrants players0 names0).2.matchList).map untag)
    ∧ ∀ p, countCalls p (processEvent upd setsOf entrants players0 names0).2.calls ≤ 1 := by
  have hnodup : ((entrantLoop entrants ⟨players0, names0, [], []⟩).players.map Prod.fst).Nodup :=
    entrantLoop_nodup entrants _ hkeys
  by_cases hnil : entrants = []
  · subst hnil
    constructor
    · show ([] : List (ℕ × List GTuple)) = updateCalls players0 []
      rw [updateCalls_nil]
    · intro p
      show countCalls p [] ≤ 1
      simp [countCalls]
  · have hids : (entrantLoop entrants ⟨players0, names0, [], []⟩).entrantIds =
        entrants.map (·.id) := by
      simpa using entrantLoop_entrantIds entrants ⟨players0, names0, [], []⟩
    have hchunks : chunksOf 25 (entrantLoop entrants ⟨players0, names0, [], []⟩).entrantIds =
        [(entrantLoop entrants ⟨players0, names0, [], []⟩).entrantIds] := by
      apply chunksOf_eq_single
      · rw [hids]
        simpa using hnil
      · rw [hids]
        simpa using h25
    have hbs : (processEvent upd setsOf entrants players0 names0).2 =
        runBatch upd setsOf (entrantLoop entrants ⟨players0, names0, [], []⟩).e2p
          ⟨(entrantLoop entrants ⟨players0, names0, [], []⟩).players, [], [], [], []⟩
          (entrantLoop entrants ⟨players0, names0, [], []⟩).entrantIds := by
      show (chunksOf 25 (entrantLoop entrants ⟨players0, names0, [], []⟩).entrantIds).foldl
          (runBatch upd setsOf (entrantLoop entrants ⟨players0, names0, [], []⟩).e2p)
          ⟨(entrantLoop entrants ⟨players0, names0, [], []⟩).players, [], [], [], []⟩ = _
      rw [hchunks]
      rfl
    have hfst : (processEvent upd setsOf entrants players0 names0).1 =
        entrantLoop entrants ⟨players0, names0, [], []⟩ := rfl
    rw [hfst, hbs]
    constructor
    · simp [runBatch]
    · intro p
      simp only [runBatch, List.nil_append]
      refine le_trans (countCalls_filter_le p _ _) ?_
      apply countCalls_le_one_of_nodup
      rw [map_fst_resultsMap]
      exact hnodup

/-- Witness for the amended C1 at a concrete single-entrant event. -/
theorem c1_single_subbatch_full_update_witness :
    (([] : PMap).map Prod.fst).Nodup
    ∧ ([Entrant.mk 1 5 "a"].length ≤ 25)
    ∧ (processEvent (fun p _ _ _ => p) (fun _ => []) [Entrant.mk 1 5 "a"] [] []).2.calls =
        updateCalls
          (processEvent (fun p _ _ _ => p) (fun _ => []) [Entrant.mk 1 5 "a"] [] []).1.players
          (((processEvent (fun p _ _ _ => p) (fun _ => [])
              [Entrant.mk 1 5 "a"] [] []).2.matchList).map untag) :=
  ⟨by decide, by decide,
    (c1_single_subbatch_full_update (fun p _ _ _ => p) (fun _ => [])
      [Entrant.mk 1 5 "a"] [] [] (by decide) (by decide)).1⟩

/-- Counterexample to C1 as stated: an event with 27 entrants (players
1..27).  Set 100 (entrant 1 beat entrant 26) is converted in sub-batch 1 and
set 200 (entrant 26 beat entrant 27) in sub-batch 2, so `apply_matches` runs
once per sub-batch and player 26's `update_player` is invoked twice within
the event — not "exactly once per player over the full collection of the
event's Matches", and each invocation sees only one of player 26's two
period opponents. -/
theorem c1_counterexample :
    countCalls 26
      ((processEvent (fun p _ _ _ => p)
        (fun e =>
          if e = 1 then [GameSet.mk 100 1 1 26]
          else if e = 26 then [GameSet.mk 100 1 1 26, GameSet.mk 200 26 26 27]
          else if e = 27 then [GameSet.mk 200 26 26 27]
          else [])
        ((List.range 27).map (fun i => Entrant.mk (i + 1) (i + 1) ""))
        [] []).2.calls) = 2 := by
  decide

theorem countSid_append (s : ℕ) (a b : List STriple) :
    countSid s (a ++ b) = countSid s a + countSid s b := by
  induction a with
  | nil => simp [countSid]
  | cons t ts ih => simp [countSid, ih]; omega

theorem stepSet_val_skip (e2p : List (ℕ × ℕ)) (acc : List STriple) (seen : List ℕ)
    (g : GameSet) (hmem : g.sid ∈ seen) :
    stepSet e2p (acc, seen) g = (acc, seen) := by
  simp [stepSet, hmem]

theorem stepSet_val_none1 (e2p : List (ℕ × ℕ)) (acc : List STriple) (seen : List ℕ)
    (g : GameSet) (hmem : g.sid ∉ seen) (h1 : alookup g.slot1 e2p = none) :
    stepSet e2p (acc, seen) g = (acc, g.sid :: seen) := by
  simp [stepSet, hmem, h1]

theorem stepSet_val_none2 (e2p : List (ℕ × ℕ)) (acc : List STriple) (seen : List ℕ)
    (g : GameSet) (p1 : ℕ) (hmem : g.sid ∉ seen) (h1 : alookup g.slot1 e2p = some p1)
    (h2 : alookup g.slot2 e2p = none) :
    stepSet e2p (acc, seen) g = (acc, g.sid :: seen) := by
  simp [stepSet, hmem, h1, h2]

theorem stepSet_val_w1 (e2p : List (ℕ × ℕ)) (acc : List STriple) (seen : List ℕ)
    (g : GameSet) (p1 p2 : ℕ) (hmem : g.sid ∉ seen)
    (h1 : alookup g.slot1 e2p = some p1) (h2 : alookup g.slot2 e2p = some p2)
    (hw1 : g.winnerId = g.slot1) :
    stepSet e2p (acc, seen) g = (acc ++ [(g.sid, p1, p2)], g.sid :: seen) := by
  simp [stepSet, hmem, h1, h2, hw1]

theorem stepSet_val_w2 (e2p : List (ℕ × ℕ)) (acc : List STriple) (seen : List ℕ)
    (g : GameSet) (p1 p2 : ℕ) (hmem : g.sid ∉ seen)
    (h1 : alookup g.slot1 e2p = some p1) (h2 : alookup g.slot2 e2p = some p2)
    (hw1 : ¬ g.winnerId = g.slot1) (hw2 : g.winnerId = g.slot2) :
    stepSet e2p (acc, seen) g = (acc ++ [(g.sid, p2, p1)], g.sid :: seen) := by
  simp only [stepSet, h1, h2]
  rw [if_neg hmem]
  rw [if_neg hw1, if_pos hw2]

theorem stepSet_val_nowin (e2p : List (ℕ × ℕ)) (acc : List STriple) (seen : List ℕ)
    (g : GameSet) (p1 p2 : ℕ) (hmem : g.sid ∉ seen)
    (h1 : alookup g.slot1 e2p = some p1) (h2 : alookup g.slot2 e2p = some p2)
    (hw1 : ¬ g.winnerId = g.slot1) (hw2 : ¬ g.winnerId = g.slot2) :
    stepSet e2p (acc, seen) g = (acc, g.sid :: seen) := by
  simp only [stepSet, h1, h2]
  rw [if_neg hmem]
  rw [if_neg hw1, if_neg hw2]

theorem stepSet_dedup (e2p : List (ℕ × ℕ)) (st : List STriple × List ℕ) (g : GameSet)
    (h : ∀ s, countSid s st.1 ≤ 1 ∧ (1 ≤ countSid s st.1 → s ∈ st.2)) :
    ∀ s, countSid s (stepSet e2p st g).1 ≤ 1
      ∧ (1 ≤ countSid s (stepSet e2p st g).1 → s ∈ (stepSet e2p st g).2) := by
  obtain ⟨acc, seen⟩ := st
  have h' : ∀ s, countSid s acc ≤ 1 ∧ (1 ≤ countSid s acc → s ∈ seen) := h
  have hkeep : ∀ s, countSid s acc ≤ 1 ∧ (1 ≤ countSid s acc → s ∈ g.sid :: seen) :=
    fun s => ⟨(h' s).1, fun hc => List.mem_cons_of_mem _ ((h' s).2 hc)⟩
  have happend : g.sid ∉ seen →
      ∀ w l s, countSid s (acc ++ [(g.sid, w, l)]) ≤ 1
        ∧ (1 ≤ countSid s (acc ++ [(g.sid, w, l)]) → s ∈ g.sid :: seen) := by
    intro hmem w l s
    rw [countSid_append]
    by_cases hs : s = g.sid
    · have hsmem : s ∉ seen := by rw [hs]; exact hmem
      have hz : countSid s acc = 0 := by
        by_contra hnz
        exact hsmem ((h' s).2 (by omega))
      have hone : countSid s [(g.sid, w, l)] = 1 := by simp [countSid, hs]
      rw [hz, hone]
      refine ⟨by omega, fun _ => ?_⟩
      rw [hs]
      exact List.mem_cons_self _ _
    · have hone : countSid s [(g.sid, w, l)] = 0 := by
        have hne : ¬ g.sid = s := fun hh => hs hh.symm
        simp [countSid, hne]
      rw [hone, Nat.add_zero]
      exact hkeep s
  by_cases hmem : g.sid ∈ seen
  · rw [stepSet_val_skip e2p acc seen g hmem]
    exact h
  · rcases h1 : alookup g.slot1 e2p with _ | p1
    · rw [stepSet_val_none1 e2p acc seen g hmem h1]
      exact hkeep
    rcases h2 : alookup g.slot2 e2p with _ | p2
    · rw [stepSet_val_none2 e2p acc seen g p1 hmem h1 h2]
      exact hkeep
    by_cases hw1 : g.winnerId = g.slot1
    · rw [stepSet_val_w1 e2p acc seen g p1 p2 hmem h1 h2 hw1]
      exact happend hmem p1 p2
    by_cases hw2 : g.winnerId = g.slot2
    · rw [stepSet_val_w2 e2p acc seen g p1 p2 hmem h1 h2 hw1 hw2]
      exact happend hmem p2 p1
    · rw [stepSet_val_nowin e2p acc seen g p1 p2 hmem h1 h2 hw1 hw2]
      exact hkeep

theorem foldl_stepSet_dedup (e2p : List (ℕ × ℕ)) (sets : List GameSet) :
    ∀ st : List STriple × List ℕ,
      (∀ s, countSid s st.1 ≤ 1 ∧ (1 ≤ countSid s st.1 → s ∈ st.2)) →
      ∀ s, countSid s (sets.foldl (stepSet e2p) st).1 ≤ 1
        ∧ (1 ≤ countSid s (sets.foldl (stepSet e2p) st).1 →
            s ∈ (sets.foldl (stepSet e2p) st).2) := by
  induction sets with
  | nil => intro st h; exact h
  | cons g gs ih =>
    intro st h
    rw [List.foldl_cons]
    exact ih _ (stepSet_dedup e2p st g h)

theorem batch_fold_dedup (e2p : List (ℕ × ℕ)) (setsOf : ℕ → List GameSet)
    (batch : List ℕ) :
    ∀ st : List STriple × List ℕ,
      (∀ s, countSid s st.1 ≤ 1 ∧ (1 ≤ countSid s st.1 → s ∈ st.2)) →
      ∀ s,
        countSid s
          (batch.foldl (fun st2 e => ((setsOf e).reverse).foldl (stepSet e2p) st2) st).1 ≤ 1
        ∧ (1 ≤ countSid s
              (batch.foldl (fun st2 e => ((setsOf e).reverse).foldl (stepSet e2p) st2) st).1 →
            s ∈ (batch.foldl (fun st2 e => ((setsOf e).reverse).foldl (stepSet e2p) st2) st).2) := by
  induction batch with
  | nil => intro st h; exact h
  | cons e es ih =>
    intro st h
    rw [List.foldl_cons]
    exact ih _ (foldl_stepSet_dedup e2p ((setsOf e).reverse) st h)

theorem stepSet_shift (e2p : List (ℕ × ℕ)) (acc₀ acc : List STriple) (seen : List ℕ)
    (g : GameSet) :
    stepSet e2p (acc₀ ++ acc, seen) g =
      (acc₀ ++ (stepSet e2p (acc, seen) g).1, (stepSet e2p (acc, seen) g).2) := by
  by_cases hmem : g.sid ∈ seen
  · rw [stepSet_val_skip e2p (acc₀ ++ acc) seen g hmem, stepSet_val_skip e2p acc seen g hmem]
  · rcases h1 : alookup g.slot1 e2p with _ | p1
    · rw [stepSet_val_none1 e2p (acc₀ ++ acc) seen g hmem h1,
        stepSet_val_none1 e2p acc seen g hmem h1]
    rcases h2 : alookup g.slot2 e2p with _ | p2
    · rw [stepSet_val_none2 e2p (acc₀ ++ acc) seen g p1 hmem h1 h2,
        stepSet_val_none2 e2p acc seen g p1 hmem h1 h2]
    by_cases hw1 : g.winnerId = g.slot1
    · rw [stepSet_val_w1 e2p (acc₀ ++ acc) seen g p1 p2 hmem h1 h2 hw1,
        stepSet_val_w1 e2p acc seen g p1 p2 hmem h1 h2 hw1]
      simp
    by_cases hw2 : g.winnerId = g.slot2
    · rw [stepSet_val_w2 e2p (acc₀ ++ acc) seen g p1 p2 hmem h1 h2 hw1 hw2,
        stepSet_val_w2 e2p acc seen g p1 p2 hmem h1 h2 hw1 hw2]
      simp
    · rw [stepSet_val_nowin e2p (acc₀ ++ acc) seen g p1 p2 hmem h1 h2 hw1 hw2,
        stepSet_val_nowin e2p acc seen g p1 p2 hmem h1 h2 hw1 hw2]

theorem foldl_stepSet_shift (e2p : List (ℕ × ℕ)) (sets : List GameSet) :
    ∀ (acc₀ acc : List STriple) (seen : List ℕ),
      sets.foldl (stepSet e2p) (acc₀ ++ acc, seen) =
        (acc₀ ++ (sets.foldl (stepSet e2p) (acc, seen)).1,
          (sets.foldl (stepSet e2p) (acc, seen)).2) := by
  induction sets with
  | nil => intro acc₀ acc seen; rfl
  | cons g gs ih =>
    intro acc₀ acc seen
    rw [List.foldl_cons, stepSet_shift]
    rcases hst : stepSet e2p (acc, seen) g with ⟨acc', seen'⟩
    rw [List.foldl_cons, hst]
    exact ih acc₀ acc' seen'

theorem batch_fold_shift (e2p : List (ℕ × ℕ)) (setsOf : ℕ → List GameSet)
    (batch : List ℕ) :
    ∀ (acc₀ acc : List STriple) (seen : List ℕ),
      batch.foldl (fun st2 e => ((setsOf e).reverse).foldl (stepSet e2p) st2)
          (acc₀ ++ acc, seen) =
        (acc₀ ++ (batch.foldl (fun st2 e => ((setsOf e).reverse).foldl (stepSet e2p) st2)
            (acc, seen)).1,
          (batch.foldl (fun st2 e => ((setsOf e).reverse).foldl (stepSet e2p) st2)
            (acc, seen)).2) := by
  induction batch with
  | nil => intro acc₀ acc seen; rfl
  | cons e es ih =>
    intro acc₀ acc seen
    rw [List.foldl_cons, foldl_stepSet_shift]
    rcases hst : ((setsOf e).reverse).foldl (stepSet e2p) (acc, seen) with ⟨acc', seen'⟩
    rw [List.foldl_cons, hst]
    exact ih acc₀ acc' seen'

theorem runBatch_match_seen (upd : UpdFn) (setsOf : ℕ → List GameSet)
    (e2p : List (ℕ × ℕ)) (st : BatchState) (b : List ℕ) :
    (runBatch upd setsOf e2p st b).matchList =
      (b.foldl (fun st2 e => ((setsOf e).reverse).foldl (stepSet e2p) st2)
        (st.matchList, st.seen)).1
    ∧ (runBatch upd setsOf e2p st b).seen =
      (b.foldl (fun st2 e => ((setsOf e).reverse).foldl (stepSet e2p) st2)
        (st.matchList, st.seen)).2 := by
  have hshift := batch_fold_shift e2p setsOf b st.matchList [] st.seen
  rw [List.append_nil] at hshift
  constructor
  · show st.matchList ++ (fetchMatchesForBatch setsOf e2p b st.seen).1 = _
    rw [hshift]
    rfl
  · show (fetchMatchesForBatch setsOf e2p b st.seen).2 = _
    rw [hshift]
    rfl

theorem batches_fold_dedup (upd : UpdFn) (setsOf : ℕ → List GameSet)
    (e2p : List (ℕ × ℕ)) :
    ∀ (bl : List (List ℕ)) (st : BatchState),
      (∀ s, countSid s st.matchList ≤ 1 ∧ (1 ≤ countSid s st.matchList → s ∈ st.seen)) →
      ∀ s, countSid s ((bl.foldl (runBatch upd setsOf e2p) st).matchList) ≤ 1
        ∧ (1 ≤ countSid s ((bl.foldl (runBatch upd setsOf e2p) st).matchList) →
            s ∈ (bl.foldl (runBatch upd setsOf e2p) st).seen) := by
  intro bl
  induction bl with
  | nil => intro st h; exact h
  | cons b rest ih =>
    intro st h
    rw [List.foldl_cons]
    apply ih
    obtain ⟨hm, hs⟩ := runBatch_match_seen upd setsOf e2p st b
    rw [hm, hs]
    exact batch_fold_dedup e2p setsOf b (st.matchList, st.seen) h

/-- C4 (amended): within one `process_event` invocation — one event's
processing, across all of its entrant sub-batches and however often a set is
observed via different entrant aliases — each set id is converted into at
most one Match (`|{matches with set_id = s}| ≤ 1`), because the `seen_sets`
registry is threaded through all of the event's sub-batches.  The registry is
created afresh at the start of each `process_event` call, so the guarantee is
event-scoped, not run-scoped. -/
theorem c4_event_dedup (upd : UpdFn) (setsOf : ℕ → List GameSet)
    (entrants : List Entrant) (players0 : PMap) (names0 : List (ℕ × String)) (s : ℕ) :
    countSid s (processEvent upd setsOf entrants players0 names0).2.matchList ≤ 1 := by
  have h0 : ∀ s', countSid s' (([] : List STriple)) ≤ 1
      ∧ (1 ≤ countSid s' ([] : List STriple) → s' ∈ ([] : List ℕ)) := by
    intro s'
    simp [countSid]
  exact (batches_fold_dedup upd setsOf
    (entrantLoop entrants ⟨players0, names0, [], []⟩).e2p
    (chunksOf 25 (entrantLoop entrants ⟨players0, names0, [], []⟩).entrantIds)
    ⟨(entrantLoop entrants ⟨players0, names0, [], []⟩).players, [], [], [], []⟩ h0 s).1

/-- Counterexample to C4 as stated (run-scoped dedup): a run in which the
same event payload is processed twice — two `process_event` invocations, each
with a fresh `seen_sets` registry — converts set 100 into a Match twice, so
`|{matches with set_id = 100}| = 2` within the run. -/
theorem c4_counterexample :
    countSid 100
      ((runEvents (fun p _ _ _ => p)
        [EventInput.mk [Entrant.mk 1 10 "a", Entrant.mk 2 20 "b"]
          (fun e => if e = 1 ∨ e = 2 then [GameSet.mk 100 1 1 2] else []),
         EventInput.mk [Entrant.mk 1 10 "a", Entrant.mk 2 20 "b"]
          (fun e => if e = 1 ∨ e = 2 then [GameSet.mk 100 1 1 2] else [])]
        ([], [], [])).2.2) = 2 := by
  decide

end StartGGSeeder
